import Mathlib

/-!
Verification of the schema-driven streaming extraction and row-to-column
transposition pipeline of the numpy-go-python-starter repository.

The Go sources are shallowly embedded:
  - dynamic interface values from the SQL driver become the inductive GoValue
    (a time.Time value is represented by its RFC3339 textual rendering;
    float64/float32 values are carried as rationals, which is exact for every
    value the claims mention);
  - Go maps keyed by strings become association lists with explicit lookup
    and overwrite functions;
  - the database becomes an explicit value: a table is a list of raw rows,
    a paged SELECT with LIMIT/OFFSET becomes List.drop then List.take, and a
    fallible query becomes a function into Except String;
  - the three historical revisions of the pipeline live in namespaces:
    Batch (db.go FetchTableData), Streaming (the RowIterator revision) and
    Npz (the npz-archive revision of saveTableToNumpy).
-/

set_option autoImplicit false

/-- Canonical type constant (db.go lines 46-56). -/
def DataTypeString : String := "string"

/-- Canonical type constant (db.go lines 46-56). -/
def DataTypeInt : String := "int"

/-- Canonical type constant (db.go lines 46-56). -/
def DataTypeFloat : String := "float"

/-- Canonical type constant (db.go lines 46-56). -/
def DataTypeBool : String := "bool"

/-- Canonical type constant (db.go lines 46-56). -/
def DataTypeTime : String := "timestamp"

/-- Canonical type constant (db.go lines 46-56). -/
def DataTypeDate : String := "date"

/-- Canonical type constant (db.go lines 46-56). -/
def DataTypeUUID : String := "uuid"

/-- Canonical type constant (db.go lines 46-56). -/
def DataTypeNull : String := "null"

/-- The closed eight-member canonical type set (spec section 3). -/
def canonicalTypes : List String :=
  [DataTypeString, DataTypeInt, DataTypeFloat, DataTypeBool,
   DataTypeTime, DataTypeDate, DataTypeUUID, DataTypeNull]

/-- The PostgreSQL type names appearing as cases of mapDataType's switch. -/
def knownSourceTypes : List String :=
  ["character varying", "text", "varchar",
   "integer", "bigint", "smallint",
   "numeric", "decimal", "real", "double precision",
   "boolean",
   "timestamp without time zone", "timestamp with time zone",
   "time without time zone", "time with time zone",
   "date", "uuid"]

/-- mapDataType (db.go lines 59-80, identical in part_001 lines 198-218):
converts a PostgreSQL type name to a canonical type, defaulting to string. -/
def mapDataType (pgType : String) : String :=
  if pgType = "character varying" ∨ pgType = "text" ∨ pgType = "varchar" then
    DataTypeString
  else if pgType = "integer" ∨ pgType = "bigint" ∨ pgType = "smallint" then
    DataTypeInt
  else if pgType = "numeric" ∨ pgType = "decimal" ∨ pgType = "real" ∨
      pgType = "double precision" then
    DataTypeFloat
  else if pgType = "boolean" then
    DataTypeBool
  else if pgType = "timestamp without time zone" ∨
      pgType = "timestamp with time zone" ∨
      pgType = "time without time zone" ∨ pgType = "time with time zone" then
    DataTypeTime
  else if pgType = "date" then
    DataTypeDate
  else if pgType = "uuid" then
    DataTypeUUID
  else
    DataTypeString

/-- A dynamically typed Go interface value as delivered by the SQL driver
and inspected by the type switches of the two saveTableToNumpy revisions.
Floating point payloads are carried exactly as rationals; a time.Time value
carries its RFC3339 rendering, which is what Format(time.RFC3339) yields. -/
inductive GoValue where
  | null
  | int64 (v : Int)
  | int (v : Int)
  | float64 (v : ℚ)
  | float32 (v : ℚ)
  | str (v : String)
  | time (rfc3339 : String)
  | bool (v : Bool)
deriving DecidableEq, Repr

/-- Go conversion int64(v) for a float64 v truncates toward zero. -/
def truncQ (q : ℚ) : Int :=
  if 0 ≤ q then q.floor else -((-q).floor)

/-- Rendering used by the fmt.Sprintf percent-v fallbacks of the string
branches. Only its type matters for the claims; the exact text of the
float renderings is abstracted. -/
def goFormat : GoValue → String
  | GoValue.null => "<nil>"
  | GoValue.int64 v => toString v
  | GoValue.int v => toString v
  | GoValue.float64 v => toString v
  | GoValue.float32 v => toString v
  | GoValue.str v => v
  | GoValue.time r => r
  | GoValue.bool v => cond v ("true") ("false")

/-- convertValue (db.go lines 39-44, part_001 lines 181-183): the per-value
conversion hook applied at the database boundary. The source returns the
raw value unchanged. -/
def convertValue (rawValue : GoValue) (_ : String) : GoValue :=
  rawValue

/-- FieldMetadata (db.go lines 11-20). -/
structure FieldMetadata where
  FieldName : String
  DataType : String
  IsPrimaryKey : Bool
  IsForeignKey : Bool
  IsNullable : Bool
  ReferencedTable : Option String
  ReferencedField : Option String
  TransformedFeatures : List String
deriving DecidableEq, Repr

/-- TableMetadata (db.go lines 22-25). -/
structure TableMetadata where
  TableName : String
  Fields : List FieldMetadata
deriving DecidableEq, Repr

/-- A row: Go map from field name to value (db.go line 28), embedded as an
association list in build order. -/
abbrev TableRow := List (String × GoValue)

/-- First-match association list lookup (the lists built here never hold a
key twice, so this agrees with Go map lookup). -/
def mapGet {α : Type} (m : List (String × α)) (k : String) : Option α :=
  (m.find? (fun p => p.1 == k)).map (fun p => p.2)

/-- Go map assignment: overwrite the binding if the key is present,
otherwise add it. -/
def mapSet {α : Type} (m : List (String × α)) (k : String) (v : α) :
    List (String × α) :=
  if m.any (fun p => p.1 == k) then
    m.map (fun p => if p.1 == k then (k, v) else p)
  else
    m ++ [(k, v)]

/-- Go map read on a row: a missing key yields the zero interface value,
which the type switches treat as nil. Later bindings overwrite earlier
ones, hence the reversed search. -/
def rowGet (row : TableRow) (k : String) : GoValue :=
  ((row.reverse.find? (fun p => p.1 == k)).map (fun p => p.2)).getD GoValue.null

/-- Row assembly shared by FetchTableData (db.go lines 131-139) and
RowIterator.Next (part_001 lines 111-118): zip the selected column names
with the scanned values and pass each through convertValue using the
column's metadata when present. -/
def buildRow (cols : List String) (meta : List (String × FieldMetadata))
    (vals : List GoValue) : TableRow :=
  (cols.zip vals).map (fun p =>
    match mapGet meta p.1 with
    | some m => (p.1, convertValue p.2 m.DataType)
    | none => (p.1, p.2))

/-- One entry of a typed output column: int64, float64, string, bool, or
the raw interface value kept by the default branch of the npz revision. -/
inductive NpEntry where
  | i64 (v : Int)
  | f64 (v : ℚ)
  | s (v : String)
  | b (v : Bool)
  | raw (v : GoValue)
deriving DecidableEq, Repr

namespace Streaming

/-- Per-value normalization extracted from the column-append switch of the
streaming saveTableToNumpy (part_001 lines 505-597). The null check of each
branch precedes its type switch, exactly as in the source. -/
def normValue (dt : String) (value : GoValue) : NpEntry :=
  if dt = DataTypeInt then
    match value with
    | GoValue.null => NpEntry.i64 0
    | GoValue.int64 v => NpEntry.i64 v
    | GoValue.int v => NpEntry.i64 v
    | GoValue.float64 v => NpEntry.i64 (truncQ v)
    | _ => NpEntry.i64 0
  else if dt = DataTypeFloat then
    match value with
    | GoValue.null => NpEntry.f64 0
    | GoValue.float64 v => NpEntry.f64 v
    | GoValue.float32 v => NpEntry.f64 v
    | GoValue.int v => NpEntry.f64 (v : ℚ)
    | _ => NpEntry.f64 0
  else if dt = DataTypeString ∨ dt = DataTypeDate ∨ dt = DataTypeTime ∨
      dt = DataTypeUUID ∨ dt = DataTypeNull then
    match value with
    | GoValue.null => NpEntry.s ""
    | GoValue.str v => NpEntry.s v
    | GoValue.time r => NpEntry.s r
    | v => NpEntry.s (goFormat v)
  else if dt = DataTypeBool then
    match value with
    | GoValue.null => NpEntry.b false
    | GoValue.bool v => NpEntry.b v
    | _ => NpEntry.b false
  else
    match value with
    | GoValue.null => NpEntry.s ""
    | v => NpEntry.s (goFormat v)

end Streaming

namespace Npz

/-- Per-value normalization extracted from the column-population switch of
the npz revision of saveTableToNumpy (part_002 lines 44-142). The branches
that only log on an unexpected representation leave the pre-allocated slot
at its zero value, which is what the corresponding case returns here. -/
def normValue (dt : String) (value : GoValue) : NpEntry :=
  if dt = DataTypeInt then
    match value with
    | GoValue.null => NpEntry.i64 0
    | GoValue.int64 v => NpEntry.i64 v
    | GoValue.int v => NpEntry.i64 v
    | GoValue.float64 v => NpEntry.i64 (truncQ v)
    | _ => NpEntry.i64 0
  else if dt = DataTypeFloat then
    match value with
    | GoValue.null => NpEntry.f64 0
    | GoValue.float64 v => NpEntry.f64 v
    | GoValue.float32 v => NpEntry.f64 v
    | GoValue.int v => NpEntry.f64 (v : ℚ)
    | _ => NpEntry.f64 0
  else if dt = DataTypeString ∨ dt = DataTypeDate then
    match value with
    | GoValue.null => NpEntry.s ""
    | GoValue.str v => NpEntry.s v
    | v => NpEntry.s (goFormat v)
  else if dt = DataTypeBool then
    match value with
    | GoValue.null => NpEntry.b false
    | GoValue.bool v => NpEntry.b v
    | _ => NpEntry.b false
  else if dt = DataTypeUUID then
    match value with
    | GoValue.null => NpEntry.s ("null")
    | GoValue.str v => NpEntry.s v
    | v => NpEntry.s (goFormat v)
  else if dt = DataTypeTime then
    match value with
    | GoValue.null => NpEntry.s ("null")
    | GoValue.time r => NpEntry.s r
    | GoValue.str v => NpEntry.s v
    | v => NpEntry.s (goFormat v)
  else if dt = DataTypeNull then
    match value with
    | GoValue.null => NpEntry.s ("null")
    | GoValue.str v => NpEntry.s v
    | v => NpEntry.s (goFormat v)
  else
    NpEntry.raw value

end Npz

namespace Batch

/-- BATCHSIZE of the batch-loading revision (db.go line 9). -/
def BATCHSIZE : Nat := 10000

/-- Observable outcome of FetchTableData: the accumulated rows together
with the per-iteration batch sizes, the successive values assigned to the
offset variable, and its final value. -/
structure FetchResult where
  rows : List TableRow
  batchSizes : List Nat
  offsets : List Nat
  finalOffset : Nat
deriving DecidableEq, Repr

/-- The paging loop of FetchTableData (db.go lines 96-151): fetch up to
BATCHSIZE rows at the current offset; stop on an empty batch; otherwise
advance the offset by the constant BATCHSIZE and continue. Fuel bounds the
number of iterations only to make the recursion structural; the wrapper
passes dbRows.length + 1, which exceeds the iteration count of the source
loop, since every non-final iteration consumes at least one row. -/
def fetchLoop (dbRows : List (List GoValue)) (cols : List String)
    (meta : List (String × FieldMetadata)) : Nat → Nat → FetchResult
  | 0, offset =>
    { rows := [], batchSizes := [], offsets := [], finalOffset := offset }
  | fuel + 1, offset =>
    let batch := (dbRows.drop offset).take BATCHSIZE
    if batch.length = 0 then
      { rows := [], batchSizes := [0], offsets := [], finalOffset := offset }
    else
      let rest := fetchLoop dbRows cols meta fuel (offset + BATCHSIZE)
      { rows := batch.map (buildRow cols meta) ++ rest.rows,
        batchSizes := batch.length :: rest.batchSizes,
        offsets := (offset + BATCHSIZE) :: rest.offsets,
        finalOffset := rest.finalOffset }

/-- FetchTableData (db.go lines 82-154) against a stable table given as a
list of raw rows aligned with the declared field list. -/
def FetchTableData (dbRows : List (List GoValue)) (table : TableMetadata) :
    FetchResult :=
  fetchLoop dbRows (table.Fields.map (fun f => f.FieldName))
    (table.Fields.map (fun f => (f.FieldName, f))) (dbRows.length + 1) 0

end Batch

namespace Streaming

/-- BATCHSIZE of the streaming revision (part_001 line 17). -/
def BATCHSIZE : Nat := 100000

/-- RowIterator (part_001 lines 20-32). The db handle and query template
are supplied to Next as an explicit fetch function; the currentRows cursor
of the source is abstracted to the flag started (nil versus non-nil). -/
structure RowIterator where
  columns : List String
  metadata : List (String × FieldMetadata)
  offset : Nat
  started : Bool
  currentBatch : List TableRow
  batchIndex : Nat
  err : Option String
  done : Bool
deriving DecidableEq, Repr

/-- NewRowIterator (part_001 lines 35-59). -/
def NewRowIterator (table : TableMetadata) : RowIterator :=
  { columns := table.Fields.map (fun f => f.FieldName),
    metadata := table.Fields.map (fun f => (f.FieldName, f)),
    offset := 0, started := false, currentBatch := [], batchIndex := 0,
    err := none, done := false }

/-- Result of one Next call: the returned row and flag, the successor
state, and the observable interaction with the database: how many queries
were issued (0 or 1) and, when a query succeeded, how many rows it
returned. -/
structure NextResult where
  row : Option TableRow
  ok : Bool
  state : RowIterator
  queries : Nat
  fetchSize : Option Nat
deriving DecidableEq, Repr

/-- RowIterator.Error (part_001 lines 141-143). -/
def RowIterator.Error (ri : RowIterator) : Option String :=
  ri.err

/-- RowIterator.Next (part_001 lines 62-138). A fetch of up to BATCHSIZE
rows at the current offset is the call db ri.offset; a query failure or a
row-scan failure is an error result of that call (a scan failure in the
source also records the error before any row of the new batch is
exposed). -/
def RowIterator.Next (ri : RowIterator)
    (db : Nat → Except String (List (List GoValue))) : NextResult :=
  if ri.done ∨ ri.err.isSome then
    { row := none, ok := false, state := ri, queries := 0, fetchSize := none }
  else if ri.started = false ∨ ri.currentBatch.length ≤ ri.batchIndex then
    match db ri.offset with
    | Except.error e =>
      { row := none, ok := false,
        state := { ri with err := some e, done := true },
        queries := 1, fetchSize := none }
    | Except.ok raws =>
      let batch := raws.map (buildRow ri.columns ri.metadata)
      if batch.length = 0 then
        { row := none, ok := false,
          state :=
            { ri with
              started := true, currentBatch := [], batchIndex := 0,
              done := true },
          queries := 1, fetchSize := some 0 }
      else
        { row := batch.head?, ok := true,
          state :=
            { ri with
              started := true, currentBatch := batch, batchIndex := 1,
              offset := ri.offset + batch.length },
          queries := 1, fetchSize := some batch.length }
  else
    { row := ri.currentBatch[ri.batchIndex]?, ok := true,
      state := { ri with batchIndex := ri.batchIndex + 1 },
      queries := 0, fetchSize := none }

/-- A stable table: the page query at a given offset returns up to P rows
starting there, with a fixed row order and no failures. -/
def stableDb (rows : List (List GoValue)) (P : Nat) :
    Nat → Except String (List (List GoValue)) :=
  fun offset => Except.ok ((rows.drop offset).take P)

/-- The consumer loop of the streaming saveTableToNumpy (part_001 line
505): call Next until it reports false, collecting the yielded rows, the
final iterator state, and the sizes returned by the fetches issued. Fuel
bounds the number of calls; rows.length + 1 calls suffice for a stable
table. -/
def drain (db : Nat → Except String (List (List GoValue))) :
    Nat → RowIterator → List TableRow × RowIterator × List Nat
  | 0, ri => ([], ri, [])
  | fuel + 1, ri =>
    let r := ri.Next db
    match r.row, r.ok with
    | some row, true =>
      let rest := drain db fuel r.state
      (row :: rest.1, rest.2.1, r.fetchSize.toList ++ rest.2.2)
    | _, _ => ([], r.state, r.fetchSize.toList)

/-- The sizes returned by the successive fetches needed to stream m
remaining rows with page size P, ending with the empty fetch that signals
exhaustion. -/
def traceOf (P m : Nat) : List Nat :=
  if h : m = 0 ∨ P = 0 then [0]
  else min P m :: traceOf P (m - min P m)
termination_by m
decreasing_by
  push_neg at h
  omega

/-- Column accumulator initialization of the streaming saveTableToNumpy
(part_001 lines 484-498): one empty slice per declared field, keyed by
field name. -/
def initColumns (fields : List FieldMetadata) : List (String × List NpEntry) :=
  fields.foldl (fun m col => mapSet m col.FieldName []) []

/-- Processing of one streamed row (part_001 lines 505-597): append the
normalized value of every declared field to that field's column. -/
def rowStep (fields : List FieldMetadata) (m : List (String × List NpEntry))
    (row : TableRow) : List (String × List NpEntry) :=
  fields.foldl
    (fun m col =>
      mapSet m col.FieldName
        ((mapGet m col.FieldName).getD [] ++
          [normValue col.DataType (rowGet row col.FieldName)]))
    m

/-- The full transposition: stream the rows through rowStep starting from
the empty columns. -/
def transposeRows (fields : List FieldMetadata) (rows : List TableRow) :
    List (String × List NpEntry) :=
  rows.foldl (rowStep fields) (initColumns fields)

end Streaming

/-- A value of the source_details map: either a string or a list of table
names (the two shapes fetchMetadata puts there). -/
inductive SDVal where
  | s (v : String)
  | arr (vs : List String)
deriving DecidableEq, Repr

/-- DatasetMetadata (db.go lines 156-160); the map-typed SourceDetails is
an association list in insertion order. -/
structure DatasetMetadata where
  DatasetName : String
  SourceType : String
  SourceDetails : List (String × SDVal)
deriving DecidableEq, Repr

/-- SchemaDetails (db.go lines 162-165). -/
structure SchemaDetails where
  DatasetMetadata : DatasetMetadata
  Tables : List TableMetadata
deriving DecidableEq, Repr

/-- The zero value of the Go declaration var schema SchemaDetails. -/
def emptyDatasetMetadata : DatasetMetadata :=
  { DatasetName := "", SourceType := "", SourceDetails := [] }

/-- The catalog query results fetchMetadata consumes, one entry per query
it issues: the base-table listing, and per table the column rows (name,
data type, is_nullable), primary key column names, and foreign key rows
(column, referenced table, referenced column). A failing query or row
scan is an error result. -/
structure Catalog where
  tables : Except String (List String)
  columns : String → Except String (List (String × String × String))
  pks : String → Except String (List String)
  fks : String → Except String (List (String × String × String))

/-- Field construction from one catalog column row (db.go lines 232-246). -/
def mkField (r : String × String × String) : FieldMetadata :=
  { FieldName := r.1, DataType := mapDataType r.2.1,
    IsPrimaryKey := false, IsForeignKey := false,
    IsNullable := r.2.2 == "YES",
    ReferencedTable := none, ReferencedField := none,
    TransformedFeatures := [] }

/-- Lookup in the fkMap Go map built by inserting the foreign key rows in
order (db.go lines 297-311): a later row for the same column overwrites an
earlier one, hence the reversed search. -/
def fkLookup (fkRows : List (String × String × String)) (col : String) :
    Option (String × String) :=
  (fkRows.reverse.find? (fun r => r.1 == col)).map (fun r => (r.2.1, r.2.2))

/-- Primary key marking of one field (db.go lines 274-278). -/
def pkMark (pkCols : List String) (f : FieldMetadata) : FieldMetadata :=
  if pkCols.contains f.FieldName then { f with IsPrimaryKey := true } else f

/-- Foreign key marking of one field (db.go lines 315-321). -/
def fkMark (fkRows : List (String × String × String)) (f : FieldMetadata) :
    FieldMetadata :=
  match fkLookup fkRows f.FieldName with
  | some ft =>
    { f with
      IsForeignKey := true, ReferencedTable := some ft.1,
      ReferencedField := some ft.2 }
  | none => f

/-- Metadata assembly for one selected table (db.go lines 216-324): build
the fields from the column rows, mark primary keys, then mark foreign keys
with their references. -/
def processTable (cat : Catalog) (tableName : String) :
    Except String TableMetadata :=
  match cat.columns tableName with
  | Except.error e =>
    Except.error ("querying columns for table " ++ tableName ++ ": " ++ e)
  | Except.ok colRows =>
    let fields0 := colRows.map mkField
    match cat.pks tableName with
    | Except.error e =>
      Except.error ("querying primary keys for table " ++ tableName ++ ": " ++ e)
    | Except.ok pkCols =>
      let fields1 := fields0.map (pkMark pkCols)
      match cat.fks tableName with
      | Except.error e =>
        Except.error ("querying foreign keys for table " ++ tableName ++ ": " ++ e)
      | Except.ok fkRows =>
        let fields2 := fields1.map (fkMark fkRows)
        Except.ok { TableName := tableName, Fields := fields2 }

/-- The main loop of fetchMetadata over the catalog's base tables (db.go
lines 198-325): skip tables outside the selection, process the rest in
order, and stop at the first failure, keeping the tables already built. -/
def fetchMetadataLoop (cat : Catalog) (tableNames : List String) :
    List String → List TableMetadata → List TableMetadata × Option String
  | [], acc => (acc, none)
  | t :: ts, acc =>
    if tableNames.contains t then
      match processTable cat t with
      | Except.error e => (acc, some e)
      | Except.ok tm => fetchMetadataLoop cat tableNames ts (acc ++ [tm])
    else
      fetchMetadataLoop cat tableNames ts acc

/-- The FK-closure pass on one field (db.go lines 331-351): a foreign key
whose referenced table is not among the selected tables loses the flag and
both reference pointers. -/
def closeFKField (tableNames : List String) (f : FieldMetadata) :
    FieldMetadata :=
  match f.IsForeignKey, f.ReferencedTable with
  | true, some rt =>
    if tableNames.contains rt then f
    else
      { f with
        IsForeignKey := false, ReferencedTable := none,
        ReferencedField := none }
  | _, _ => f

/-- fetchMetadata (db.go lines 182-363): returns the schema together with
the error slot, exactly as the Go function returns the pair
(SchemaDetails, error). On success the FK-closure pass runs and the
dataset metadata is filled in; on failure the value accumulated so far is
returned beside the error. -/
def fetchMetadata (cat : Catalog) (dbName : String)
    (tableNames : List String) : SchemaDetails × Option String :=
  match cat.tables with
  | Except.error e =>
    ({ DatasetMetadata := emptyDatasetMetadata, Tables := [] },
      some ("querying tables: " ++ e))
  | Except.ok allTables =>
    match fetchMetadataLoop cat tableNames allTables [] with
    | (tbls, some e) =>
      ({ DatasetMetadata := emptyDatasetMetadata, Tables := tbls }, some e)
    | (tbls, none) =>
      let closed := tbls.map (fun tm =>
        { tm with Fields := tm.Fields.map (closeFKField tableNames) })
      ({ DatasetMetadata :=
          { DatasetName := dbName, SourceType := "Relational Database",
            SourceDetails :=
              [("database_type", SDVal.s ("PostgreSQL")),
               ("tables_or_collections", SDVal.arr tableNames)] },
         Tables := closed }, none)

/-- JSON string serialization; escaping is elided, which affects no claim
(two equal strings serialize equally either way). -/
def jstr (s : String) : String := "\"" ++ s ++ "\""

/-- JSON boolean serialization. -/
def jbool (b : Bool) : String := cond b ("true") ("false")

/-- JSON serialization of a list of strings. -/
def jarrStr (xs : List String) : String :=
  "[" ++ String.intercalate (",") (xs.map jstr) ++ "]"

/-- JSON serialization of a nullable string pointer: Go marshals a nil
pointer as null. -/
def jopt (o : Option String) : String :=
  match o with
  | some s => jstr s
  | none => "null"

/-- JSON serialization of a source_details value. -/
def serializeSDVal : SDVal → String
  | SDVal.s v => jstr v
  | SDVal.arr vs => jarrStr vs

/-- Lexicographic order on character lists by code point, the order
json.Marshal sorts map keys in (byte order coincides with code point
order for the ASCII keys involved). -/
def charListLe : List Char → List Char → Bool
  | [], _ => true
  | _ :: _, [] => false
  | c :: cs, d :: ds =>
    if c.val < d.val then true
    else if d.val < c.val then false
    else charListLe cs ds

/-- Key order used when marshalling a map. -/
def keyLe (a b : String) : Bool := charListLe a.data b.data

/-- Insertion into a key-sorted pair list, ordered by key as json.Marshal
orders map keys. -/
def insertPair (p : String × SDVal) :
    List (String × SDVal) → List (String × SDVal)
  | [] => [p]
  | q :: qs => if keyLe p.1 q.1 then p :: q :: qs else q :: insertPair p qs

/-- Key sort used by json.Marshal on map keys. -/
def sortPairs : List (String × SDVal) → List (String × SDVal)
  | [] => []
  | p :: ps => insertPair p (sortPairs ps)

/-- json.Marshal of the map-typed source_details field: the runtime hands
over the entries in an arbitrary iteration order (here: the construction
order or its reverse, the two orders a two-key map admits), and Marshal
sorts the keys before emitting the object. -/
def marshalSourceDetails (iterOrder : Bool) (pairs : List (String × SDVal)) :
    String :=
  let handed := if iterOrder then pairs.reverse else pairs
  "\x7b" ++
    String.intercalate (",")
      ((sortPairs handed).map (fun p => jstr p.1 ++ ":" ++ serializeSDVal p.2))
    ++ "\x7d"

/-- json.Marshal of a FieldMetadata value: struct fields in declaration
order under their tags (db.go lines 11-20); the always-nil
TransformedFeatures slice marshals as null. -/
def serializeFieldMetadata (f : FieldMetadata) : String :=
  "\x7b" ++ jstr ("field_name") ++ ":" ++ jstr f.FieldName ++ "," ++
    jstr ("data_type") ++ ":" ++ jstr f.DataType ++ "," ++
    jstr ("is_primary_key") ++ ":" ++ jbool f.IsPrimaryKey ++ "," ++
    jstr ("is_foreign_key") ++ ":" ++ jbool f.IsForeignKey ++ "," ++
    jstr ("nullable") ++ ":" ++ jbool f.IsNullable ++ "," ++
    jstr ("referenced_table_or_collection") ++ ":" ++ jopt f.ReferencedTable ++ "," ++
    jstr ("referenced_field") ++ ":" ++ jopt f.ReferencedField ++ "," ++
    jstr ("transformed_features") ++ ":" ++
    (if f.TransformedFeatures.isEmpty then "null"
     else jarrStr f.TransformedFeatures) ++ "\x7d"

/-- json.Marshal of a TableMetadata value (db.go lines 22-25). -/
def serializeTableMetadata (tm : TableMetadata) : String :=
  "\x7b" ++ jstr ("table_or_collection_name") ++ ":" ++ jstr tm.TableName ++ "," ++
    jstr ("fields") ++ ":[" ++
    String.intercalate (",") (tm.Fields.map serializeFieldMetadata) ++
    "]\x7d"

/-- json.Marshal of a SchemaDetails value as saveMetadata serializes it
(main.go lines 15-25, db.go lines 156-165). The iteration order of the one
map-typed field is the only run-dependent input. -/
def serializeSchemaDetails (iterOrder : Bool) (sd : SchemaDetails) : String :=
  "\x7b" ++ jstr ("dataset_metadata") ++ ":\x7b" ++
    jstr ("dataset_name") ++ ":" ++ jstr sd.DatasetMetadata.DatasetName ++ "," ++
    jstr ("source_type") ++ ":" ++ jstr sd.DatasetMetadata.SourceType ++ "," ++
    jstr ("source_details") ++ ":" ++
    marshalSourceDetails iterOrder sd.DatasetMetadata.SourceDetails ++
    "\x7d," ++ jstr ("tables") ++ ":[" ++
    String.intercalate (",") (sd.Tables.map serializeTableMetadata) ++
    "]\x7d"

/-- A field carrying only a name and canonical type, as used by the
concrete instances below. -/
def plainField (name dt : String) : FieldMetadata :=
  { FieldName := name, DataType := dt, IsPrimaryKey := false,
    IsForeignKey := false, IsNullable := false, ReferencedTable := none,
    ReferencedField := none, TransformedFeatures := [] }

/-- A one-column table used by the concrete instances below. -/
def idTable : TableMetadata :=
  { TableName := "users", Fields := [plainField ("id") DataTypeInt] }

/-- An iterator that has recorded a fetch error, used by the concrete
instances below. -/
def failedIterator : Streaming.RowIterator :=
  { columns := ["id"], metadata := [("id", plainField ("id") DataTypeInt)],
    offset := 3, started := true, currentBatch := [], batchIndex := 0,
    err := some "connection reset", done := true }

/-- A catalog whose second selected table fails its column query, used by
the concrete instances below. -/
def failingCatalog : Catalog :=
  { tables := Except.ok ["alpha", "beta"],
    columns := fun t =>
      if t == "alpha" then Except.ok [("id", "integer", "NO")]
      else Except.error "connection reset",
    pks := fun _ => Except.ok [],
    fks := fun _ => Except.ok [] }

/-- A two-table catalog with one in-selection and one out-of-selection
foreign key, used by the concrete instances below. -/
def fkCatalog : Catalog :=
  { tables := Except.ok ["users", "sessions"],
    columns := fun t =>
      if t == "users" then Except.ok [("id", "integer", "NO")]
      else if t == "sessions" then
        Except.ok
          [("id", "integer", "NO"), ("user_id", "integer", "YES"),
           ("org_id", "integer", "YES")]
      else Except.ok [],
    pks := fun t => if t == "users" ∨ t == "sessions" then Except.ok ["id"] else Except.ok [],
    fks := fun t =>
      if t == "sessions" then
        Except.ok [("user_id", "users", "id"), ("org_id", "orgs", "id")]
      else Except.ok [] }

/-- The shape invariant of a field after the per-table build of
fetchMetadata: the foreign key flag is set exactly when both reference
pointers are. -/
def FKConsistent (f : FieldMetadata) : Prop :=
  (f.IsForeignKey = true ∧ f.ReferencedTable.isSome = true ∧
    f.ReferencedField.isSome = true) ∨
  (f.IsForeignKey = false ∧ f.ReferencedTable = none ∧
    f.ReferencedField = none)

/-- The org_id field as it leaves the FK-closure pass of the fkCatalog
discovery: flag cleared, both pointers absent. -/
def orgIdField : FieldMetadata :=
  { FieldName := "org_id", DataType := "int", IsPrimaryKey := false,
    IsForeignKey := false, IsNullable := true, ReferencedTable := none,
    ReferencedField := none, TransformedFeatures := [] }

/-- The sessions table as returned by discovery over fkCatalog. -/
def sessionsOut : TableMetadata :=
  { TableName := "sessions",
    Fields :=
      [{ FieldName := "id", DataType := "int", IsPrimaryKey := true,
         IsForeignKey := false, IsNullable := false, ReferencedTable := none,
         ReferencedField := none, TransformedFeatures := [] },
       { FieldName := "user_id", DataType := "int", IsPrimaryKey := false,
         IsForeignKey := true, IsNullable := true,
         ReferencedTable := some "users", ReferencedField := some "id",
         TransformedFeatures := [] },
       orgIdField] }

/-- A five-row one-column table used by the concrete instances below. -/
def rows5 : List (List GoValue) :=
  [[GoValue.int64 1], [GoValue.int64 2], [GoValue.int64 3],
   [GoValue.int64 4], [GoValue.int64 5]]

/-- A two-row stream for the one-column table, the second row null, used
by the concrete instances below. -/
def c5Rows : List TableRow :=
  [[("id", GoValue.int64 1)], [("id", GoValue.null)]]

/-- C2 counterexample: in the npz revision, normalizing a null raw value
for a uuid column yields the literal text null, not the empty string the
claim requires for the UUID canonical type. -/
theorem C2_null_sentinel_counterexample :
    Npz.normValue DataTypeUUID GoValue.null = NpEntry.s ("null") ∧
      NpEntry.s ("null") ≠ NpEntry.s ("") := by
  exact ⟨rfl, by decide⟩

/-- C2 amended: normalizing a null raw value yields, per canonical type:
0 for int, 0.0 for float and false for bool in both revisions; the empty
string for string and date in both revisions; and for timestamp, uuid and
the null type, the empty string in the streaming revision but the literal
text null in the npz revision. Each revision's policy is a function of the
canonical type alone, hence uniform across all columns of that type. -/
theorem C2_null_sentinels :
    (Streaming.normValue DataTypeInt GoValue.null = NpEntry.i64 0) ∧
    (Streaming.normValue DataTypeFloat GoValue.null = NpEntry.f64 0) ∧
    (Streaming.normValue DataTypeBool GoValue.null = NpEntry.b false) ∧
    (Streaming.normValue DataTypeString GoValue.null = NpEntry.s ("")) ∧
    (Streaming.normValue DataTypeDate GoValue.null = NpEntry.s ("")) ∧
    (Streaming.normValue DataTypeTime GoValue.null = NpEntry.s ("")) ∧
    (Streaming.normValue DataTypeUUID GoValue.null = NpEntry.s ("")) ∧
    (Streaming.normValue DataTypeNull GoValue.null = NpEntry.s ("")) ∧
    (Npz.normValue DataTypeInt GoValue.null = NpEntry.i64 0) ∧
    (Npz.normValue DataTypeFloat GoValue.null = NpEntry.f64 0) ∧
    (Npz.normValue DataTypeBool GoValue.null = NpEntry.b false) ∧
    (Npz.normValue DataTypeString GoValue.null = NpEntry.s ("")) ∧
    (Npz.normValue DataTypeDate GoValue.null = NpEntry.s ("")) ∧
    (Npz.normValue DataTypeTime GoValue.null = NpEntry.s ("null")) ∧
    (Npz.normValue DataTypeUUID GoValue.null = NpEntry.s ("null")) ∧
    (Npz.normValue DataTypeNull GoValue.null = NpEntry.s ("null")) := by
  decide

/-- C9: mapDataType assigns every source type string exactly one member of
the closed eight-member canonical set, and any string outside the switch
cases maps to the string canonical type. -/
theorem C9_mapDataType_total (s : String) :
    mapDataType s ∈ canonicalTypes ∧
      (s ∉ knownSourceTypes → mapDataType s = DataTypeString) := by
  constructor
  · unfold mapDataType
    split_ifs <;> simp [canonicalTypes]
  · intro hs
    unfold mapDataType
    split_ifs with h1 h2 h3 h4 h5 h6 h7
    · exact absurd (by rcases h1 with h | h | h <;> simp [knownSourceTypes, h]) hs
    · exact absurd (by rcases h2 with h | h | h <;> simp [knownSourceTypes, h]) hs
    · exact absurd (by rcases h3 with h | h | h | h <;> simp [knownSourceTypes, h]) hs
    · exact absurd (by simp [knownSourceTypes, h4]) hs
    · exact absurd (by rcases h5 with h | h | h | h <;> simp [knownSourceTypes, h]) hs
    · exact absurd (by simp [knownSourceTypes, h6]) hs
    · exact absurd (by simp [knownSourceTypes, h7]) hs
    · rfl

/-- C9 witness: the unrecognized source type text maps to the string
canonical type. -/
theorem C9_mapDataType_total_witness :
    mapDataType ("jsonb") = DataTypeString :=
  (C9_mapDataType_total ("jsonb")).2 (by decide)

/-- C10: the per-value conversion helper applied at the database boundary
returns its raw argument unchanged, so every row assembled from scanned
values is exposed with exactly those raw values. -/
theorem C10_convertValue_identity :
    (∀ (v : GoValue) (dt : String), convertValue v dt = v) ∧
      (∀ (cols : List String) (meta : List (String × FieldMetadata))
        (vals : List GoValue), buildRow cols meta vals = cols.zip vals) := by
  refine ⟨fun v dt => rfl, fun cols meta vals => ?_⟩
  unfold buildRow
  have h : ∀ p : String × GoValue,
      (match mapGet meta p.1 with
        | some m => (p.1, convertValue p.2 m.DataType)
        | none => (p.1, p.2)) = p := by
    intro p
    cases mapGet meta p.1 <;> rfl
  calc (cols.zip vals).map _ = (cols.zip vals).map id := List.map_congr_left (fun p _ => h p)
    _ = cols.zip vals := List.map_id _

/-- C1 counterexample: in the export path of main.go, FetchTableData on a
one-row table receives one row from its first fetch yet advances the
offset to the fixed page size 10000, not to 1. -/
theorem C1_offset_counterexample :
    (Batch.FetchTableData [[GoValue.int64 5]] idTable).batchSizes.head? = some 1 ∧
    (Batch.FetchTableData [[GoValue.int64 5]] idTable).offsets.head? = some 10000 ∧
    (10000 : Nat) ≠ 0 + 1 := by
  refine ⟨by decide, by decide, by decide⟩

/-- C1 amended: the streaming row iterator advances its pagination offset
by the number of rows actually returned by each fetch that returns at
least one row; the batch loader FetchTableData of db.go instead advances
its offset by the fixed page size after every non-empty fetch. -/
theorem C1_streaming_offset_advance (db : Nat → Except String (List (List GoValue)))
    (ri : Streaming.RowIterator) (raws : List (List GoValue))
    (hdone : ri.done = false) (herr : ri.err = none)
    (hneed : ri.started = false ∨ ri.currentBatch.length ≤ ri.batchIndex)
    (hq : db ri.offset = Except.ok raws) (hne : raws ≠ []) :
    (ri.Next db).state.offset = ri.offset + raws.length ∧
      (ri.Next db).fetchSize = some raws.length := by
  unfold Streaming.RowIterator.Next
  rw [if_neg (by simp [hdone, herr]), if_pos hneed, hq]
  simp [hne]

/-- C1 witness: a one-row stable table with page size 2 makes the
streaming iterator advance its offset from 0 to 1. -/
theorem C1_streaming_offset_advance_witness :
    ((Streaming.NewRowIterator idTable).Next
        (Streaming.stableDb [[GoValue.int64 5]] 2)).state.offset = 0 + 1 ∧
      ((Streaming.NewRowIterator idTable).Next
        (Streaming.stableDb [[GoValue.int64 5]] 2)).fetchSize = some 1 :=
  C1_streaming_offset_advance (Streaming.stableDb [[GoValue.int64 5]] 2)
    (Streaming.NewRowIterator idTable) [[GoValue.int64 5]] rfl rfl
    (Or.inl rfl) rfl (by decide)

/-- C7: once the iterator has recorded an error, Next returns false with
no row, issues no database query, leaves the state unchanged (so every
subsequent call behaves identically), and the error stays retrievable
through the Error accessor. -/
theorem C7_failed_is_terminal (db : Nat → Except String (List (List GoValue)))
    (ri : Streaming.RowIterator) (h : ri.err.isSome = true) :
    (ri.Next db).ok = false ∧ (ri.Next db).row = none ∧
      (ri.Next db).queries = 0 ∧ (ri.Next db).state = ri ∧
      (ri.Next db).state.Error = ri.err := by
  unfold Streaming.RowIterator.Next
  rw [if_pos (Or.inr h)]
  exact ⟨rfl, rfl, rfl, rfl, rfl⟩

/-- C7 witness: a concrete failed iterator returns false, issues no query
and keeps its recorded error. -/
theorem C7_failed_is_terminal_witness :
    (failedIterator.Next (Streaming.stableDb [] 5)).ok = false ∧
      (failedIterator.Next (Streaming.stableDb [] 5)).row = none ∧
      (failedIterator.Next (Streaming.stableDb [] 5)).queries = 0 ∧
      (failedIterator.Next (Streaming.stableDb [] 5)).state = failedIterator ∧
      (failedIterator.Next (Streaming.stableDb [] 5)).state.Error =
        failedIterator.err :=
  C7_failed_is_terminal (Streaming.stableDb [] 5) failedIterator rfl

/-- C6 counterexample: when the column query of the second selected table
fails, fetchMetadata returns the error together with a schema value that
still carries the first table's fully built metadata, so the result on the
error path is not free of partially built table metadata. -/
theorem C6_partial_schema_counterexample :
    (fetchMetadata failingCatalog ("db") ["alpha", "beta"]).2.isSome = true ∧
      (fetchMetadata failingCatalog ("db") ["alpha", "beta"]).1.Tables ≠ [] := by
  decide

/-- C6 amended: any catalog query failure aborts the whole discovery with
an error: processing stops at the first failure and the dataset-level
metadata (and the FK-closure pass) never runs, so the value beside the
error carries only the zero dataset metadata, though it may retain tables
built before the failure, which every caller discards. -/
theorem C6_abort_without_dataset_metadata (cat : Catalog) (dbName : String)
    (sel : List String) (h : (fetchMetadata cat dbName sel).2.isSome = true) :
    (fetchMetadata cat dbName sel).1.DatasetMetadata = emptyDatasetMetadata := by
  unfold fetchMetadata at h ⊢
  split at h
  next e heq =>
    rfl
  next ts heq =>
    split at h
    next tbls e heq2 =>
      rfl
    next tbls heq2 =>
      simp at h

/-- C6 witness: the failing catalog yields an error and the zero dataset
metadata beside it. -/
theorem C6_abort_without_dataset_metadata_witness :
    (fetchMetadata failingCatalog ("db") ["alpha", "beta"]).1.DatasetMetadata =
      emptyDatasetMetadata :=
  C6_abort_without_dataset_metadata failingCatalog ("db") ["alpha", "beta"]
    (by decide)

/-- A field carrying the clear-flag shape stays FK-consistent through the
foreign key marking pass. -/
theorem FKConsistent_fkMark (fkRows : List (String × String × String))
    (g : FieldMetadata) (hfk : g.IsForeignKey = false)
    (hrt : g.ReferencedTable = none) (hrf : g.ReferencedField = none) :
    FKConsistent (fkMark fkRows g) := by
  unfold fkMark
  cases fkLookup fkRows g.FieldName with
  | some ft => exact Or.inl ⟨rfl, rfl, rfl⟩
  | none => exact Or.inr ⟨hfk, hrt, hrf⟩

/-- Every field of a table built by processTable satisfies the FK shape
invariant. -/
theorem processTable_FKConsistent (cat : Catalog) (t : String)
    (tm : TableMetadata) (h : processTable cat t = Except.ok tm) :
    ∀ f ∈ tm.Fields, FKConsistent f := by
  unfold processTable at h
  split at h
  · simp at h
  · split at h
    · simp at h
    · split at h
      · simp at h
      · rename_i colRows heqc pkCols heqp fkRows heqk
        rw [Except.ok.injEq] at h
        subst h
        intro f hf
        simp only [List.mem_map] at hf
        obtain ⟨g1, hg1, rfl⟩ := hf
        obtain ⟨g0, hg0, rfl⟩ := hg1
        obtain ⟨r, hr, rfl⟩ := hg0
        refine FKConsistent_fkMark fkRows _ ?_ ?_ ?_ <;>
          · unfold pkMark mkField
            split <;> rfl

/-- A table produced on the success path of the discovery loop comes from
a successful processTable call (or was already in the accumulator). -/
theorem fetchMetadataLoop_ok_mem (cat : Catalog) (sel : List String) :
    ∀ (ts : List String) (acc out : List TableMetadata),
      fetchMetadataLoop cat sel ts acc = (out, none) →
      ∀ tm ∈ out, tm ∈ acc ∨ ∃ t, processTable cat t = Except.ok tm := by
  intro ts
  induction ts with
  | nil =>
    intro acc out h tm hm
    simp only [fetchMetadataLoop] at h
    injection h with h1 h2
    subst h1
    exact Or.inl hm
  | cons t ts ih =>
    intro acc out h tm hm
    simp only [fetchMetadataLoop] at h
    by_cases hsel : sel.contains t = true
    · rw [if_pos hsel] at h
      cases hpt : processTable cat t with
      | error e => rw [hpt] at h; simp at h
      | ok tmNew =>
        rw [hpt] at h
        rcases ih (acc ++ [tmNew]) out h tm hm with hin | hex
        · rcases List.mem_append.mp hin with h1 | h2
          · exact Or.inl h1
          · simp only [List.mem_singleton] at h2
            subst h2
            exact Or.inr ⟨t, hpt⟩
        · exact Or.inr hex
    · rw [if_neg hsel] at h
      exact ih acc out h tm hm

/-- The FK-closure pass turns any FK-consistent field into one whose flag
matches the presence of both pointers and whose referenced table, if the
flag survives, belongs to the selection. -/
theorem closeFKField_spec (sel : List String) (f : FieldMetadata)
    (h : FKConsistent f) :
    ((closeFKField sel f).IsForeignKey = true ↔
      ((closeFKField sel f).ReferencedTable.isSome = true ∧
        (closeFKField sel f).ReferencedField.isSome = true)) ∧
    ((closeFKField sel f).IsForeignKey = true →
      ∃ rt, (closeFKField sel f).ReferencedTable = some rt ∧ rt ∈ sel) := by
  rcases h with ⟨hfk, hrt, hrf⟩ | ⟨hfk, hrt, hrf⟩
  · obtain ⟨rt, hrt'⟩ := Option.isSome_iff_exists.mp hrt
    obtain ⟨rf, hrf'⟩ := Option.isSome_iff_exists.mp hrf
    have hval : closeFKField sel f =
        if sel.contains rt then f
        else
          { f with
            IsForeignKey := false, ReferencedTable := none,
            ReferencedField := none } := by
      unfold closeFKField
      rw [hfk, hrt']
    rw [hval]
    by_cases hc : (sel.contains rt : Bool) = true
    · rw [if_pos hc]
      refine ⟨?_, fun _ => ⟨rt, hrt', by simpa using hc⟩⟩
      rw [hfk, hrt', hrf']
      simp
    · rw [if_neg hc]
      refine ⟨?_, fun hcontra => by simp at hcontra⟩
      simp
  · have hval : closeFKField sel f = f := by
      unfold closeFKField
      rw [hfk, hrt]
    rw [hval, hfk, hrt, hrf]
    refine ⟨by simp, fun hcontra => by simp at hcontra⟩

/-- C3: after a successful discovery, every field of every returned table
has its foreign key flag set exactly when both reference pointers are
present, and a set flag implies the referenced table is in the selected
set (a reference outside the selection has been cleared). -/
theorem C3_fk_closure_invariant (cat : Catalog) (dbName : String)
    (sel : List String) (h : (fetchMetadata cat dbName sel).2 = none) :
    ∀ tm ∈ (fetchMetadata cat dbName sel).1.Tables, ∀ f ∈ tm.Fields,
      (f.IsForeignKey = true ↔
        (f.ReferencedTable.isSome = true ∧ f.ReferencedField.isSome = true)) ∧
      (f.IsForeignKey = true → ∃ rt, f.ReferencedTable = some rt ∧ rt ∈ sel) := by
  unfold fetchMetadata at h ⊢
  split at h
  · simp at h
  · rename_i ts heq
    split at h
    · simp at h
    · rename_i tbls heq2
      intro tm htm f hf
      simp only [List.mem_map] at htm
      obtain ⟨tm0, htm0, rfl⟩ := htm
      simp only [List.mem_map] at hf
      obtain ⟨f0, hf0, rfl⟩ := hf
      have hcons : FKConsistent f0 := by
        rcases fetchMetadataLoop_ok_mem cat sel ts [] tbls heq2 tm0 htm0 with
          hin | ⟨t, hpt⟩
        · simp at hin
        · exact processTable_FKConsistent cat t tm0 hpt f0 hf0
      exact closeFKField_spec sel f0 hcons

/-- C3 witness: in the concrete two-table discovery, the cleared org_id
field satisfies the flag-pointer equivalence. -/
theorem C3_fk_closure_invariant_witness :
    orgIdField.IsForeignKey = true ↔
      (orgIdField.ReferencedTable.isSome = true ∧
        orgIdField.ReferencedField.isSome = true) :=
  (C3_fk_closure_invariant fkCatalog ("db") ["users", "sessions"] (by decide)
    sessionsOut (by decide) orgIdField (by decide)).1

/-- The source_details of a discovery result is either the zero map (error
path) or the two fixed keys in construction order (success path). -/
theorem sourceDetails_shape (cat : Catalog) (dbName : String)
    (sel : List String) :
    (fetchMetadata cat dbName sel).1.DatasetMetadata.SourceDetails = [] ∨
      (fetchMetadata cat dbName sel).1.DatasetMetadata.SourceDetails =
        [("database_type", SDVal.s ("PostgreSQL")),
         ("tables_or_collections", SDVal.arr sel)] := by
  unfold fetchMetadata
  split
  · exact Or.inl rfl
  · split
    · exact Or.inl rfl
    · exact Or.inr rfl

/-- C8: serializing the discovery result of one catalog is independent of
the map iteration order the runtime happens to use for the map-typed
source_details field, because json.Marshal sorts object keys; since the
rest of fetchMetadata is a pure function of the catalog, two discoveries
over identical catalog results produce byte-identical serialized
SchemaDetails. -/
theorem C8_deterministic_serialization (cat : Catalog) (dbName : String)
    (sel : List String) (o₁ o₂ : Bool) :
    serializeSchemaDetails o₁ (fetchMetadata cat dbName sel).1 =
      serializeSchemaDetails o₂ (fetchMetadata cat dbName sel).1 := by
  unfold serializeSchemaDetails
  have hm : marshalSourceDetails o₁
      (fetchMetadata cat dbName sel).1.DatasetMetadata.SourceDetails =
      marshalSourceDetails o₂
        (fetchMetadata cat dbName sel).1.DatasetMetadata.SourceDetails := by
    have h1 : keyLe ("tables_or_collections") ("database_type") = false := by
      decide
    have h2 : keyLe ("database_type") ("tables_or_collections") = true := by
      decide
    rcases sourceDetails_shape cat dbName sel with hsd | hsd <;> rw [hsd] <;>
      cases o₁ <;> cases o₂ <;>
        simp [marshalSourceDetails, sortPairs, insertPair, h1, h2]
  rw [hm]

/-- One unfolding step of the consumer loop. -/
theorem drain_succ (db : Nat → Except String (List (List GoValue)))
    (fuel : Nat) (ri : Streaming.RowIterator) :
    Streaming.drain db (fuel + 1) ri =
      match (ri.Next db).row, (ri.Next db).ok with
      | some row, true =>
        (row :: (Streaming.drain db fuel (ri.Next db).state).1,
         (Streaming.drain db fuel (ri.Next db).state).2.1,
         (ri.Next db).fetchSize.toList ++
           (Streaming.drain db fuel (ri.Next db).state).2.2)
      | _, _ => ([], (ri.Next db).state, (ri.Next db).fetchSize.toList) :=
  rfl

/-- The fetch-size trace of a streamed table of m remaining rows: the
empty-table trace is the single empty fetch. -/
theorem traceOf_zero (P : Nat) : Streaming.traceOf P 0 = [0] := by
  unfold Streaming.traceOf
  simp

/-- Unfolding of the fetch-size trace while rows remain. -/
theorem traceOf_pos (P m : Nat) (hP : 0 < P) (hm : 0 < m) :
    Streaming.traceOf P m =
      min P m :: Streaming.traceOf P (m - min P m) := by
  conv_lhs => rw [Streaming.traceOf.eq_def]
  rw [dif_neg (by omega)]


/-- A Next call on a live iterator with an unconsumed buffer entry serves
it without touching the database. -/
theorem Next_buffer (cols : List String) (meta : List (String × FieldMetadata))
    (o : Nat) (b : List TableRow) (j : Nat)
    (db : Nat → Except String (List (List GoValue))) (hbuf : j < b.length) :
    (⟨cols, meta, o, true, b, j, none, false⟩ :
        Streaming.RowIterator).Next db =
      { row := some b[j], ok := true,
        state := ⟨cols, meta, o, true, b, j + 1, none, false⟩,
        queries := 0, fetchSize := none } := by
  unfold Streaming.RowIterator.Next
  simp [Nat.not_le.mpr hbuf, List.getElem?_eq_getElem hbuf]

/-- A Next call that must fetch and receives no rows transitions to the
exhausted state. -/
theorem Next_fetch_empty (cols : List String)
    (meta : List (String × FieldMetadata)) (o : Nat) (st : Bool)
    (b : List TableRow) (j : Nat)
    (db : Nat → Except String (List (List GoValue)))
    (hneed : st = false ∨ b.length ≤ j) (hq : db o = Except.ok []) :
    (⟨cols, meta, o, st, b, j, none, false⟩ :
        Streaming.RowIterator).Next db =
      { row := none, ok := false,
        state := ⟨cols, meta, o, true, [], 0, none, true⟩,
        queries := 1, fetchSize := some 0 } := by
  unfold Streaming.RowIterator.Next
  rw [if_neg (by simp), if_pos hneed, hq]
  simp

/-- A Next call that must fetch and receives rows buffers them, serves the
first, and advances the offset by the number of rows received. -/
theorem Next_fetch_rows (cols : List String)
    (meta : List (String × FieldMetadata)) (o : Nat) (st : Bool)
    (b : List TableRow) (j : Nat)
    (db : Nat → Except String (List (List GoValue)))
    (raws : List (List GoValue)) (hneed : st = false ∨ b.length ≤ j)
    (hq : db o = Except.ok raws) (hne : raws ≠ []) :
    (⟨cols, meta, o, st, b, j, none, false⟩ :
        Streaming.RowIterator).Next db =
      { row := (raws.map (buildRow cols meta)).head?, ok := true,
        state := ⟨cols, meta, o + raws.length, true,
          raws.map (buildRow cols meta), 1, none, false⟩,
        queries := 1, fetchSize := some raws.length } := by
  unfold Streaming.RowIterator.Next
  rw [if_neg (by simp), if_pos hneed, hq]
  simp [hne]

/-- Driving the iterator against a stable table from any consistent
mid-stream state yields the rest of the buffer followed by all remaining
rows, ends in the exhausted state with offset at the row count, and issues
the fetch-size trace of the remaining rows. -/
theorem drain_stable (rows : List (List GoValue)) (cols : List String)
    (meta : List (String × FieldMetadata)) (P : Nat) (hP : 0 < P) :
    ∀ (fuel o : Nat) (st : Bool) (b : List TableRow) (j : Nat),
      o ≤ rows.length → j ≤ b.length →
      (st = false → b = [] ∧ j = 0) →
      (b.length - j) + (rows.length - o) + 1 ≤ fuel →
      Streaming.drain (Streaming.stableDb rows P) fuel
          ⟨cols, meta, o, st, b, j, none, false⟩ =
        (b.drop j ++ (rows.drop o).map (buildRow cols meta),
         (⟨cols, meta, rows.length, true, [], 0, none, true⟩ :
           Streaming.RowIterator),
         Streaming.traceOf P (rows.length - o)) := by
  intro fuel
  induction fuel with
  | zero =>
    intro o st b j ho hj hst hfuel
    omega
  | succ fuel ih =>
    intro o st b j ho hj hst hfuel
    by_cases hbuf : j < b.length
    · have hst' : st = true := by
        cases st
        · exfalso
          obtain ⟨hb, hj0⟩ := hst rfl
          subst hb
          simp at hbuf
        · rfl
      subst hst'
      rw [drain_succ, Next_buffer cols meta o b j _ hbuf]
      have hrec := ih o true b (j + 1) ho hbuf
        (by intro hcontra; cases hcontra) (by omega)
      simp only [hrec]
      refine Prod.ext ?_ (Prod.ext rfl rfl)
      show _ = b.drop j ++ _
      rw [List.drop_eq_getElem_cons hbuf]
      rfl
    · have hneed : st = false ∨ b.length ≤ j := by
        cases st
        · exact Or.inl rfl
        · exact Or.inr (Nat.le_of_not_lt hbuf)
      have hdropb : b.drop j = [] :=
        List.drop_eq_nil_of_le (Nat.le_of_not_lt hbuf)
      by_cases hoN : rows.length ≤ o
      · have hdropr : rows.drop o = [] := List.drop_eq_nil_of_le hoN
        have hq : Streaming.stableDb rows P o = Except.ok [] := by
          simp [Streaming.stableDb, hdropr]
        rw [drain_succ, Next_fetch_empty cols meta o st b j _ hneed hq]
        have hoe : o = rows.length := Nat.le_antisymm ho hoN
        simp [hdropb, hdropr, hoe, traceOf_zero]
      · have holt : o < rows.length := Nat.lt_of_not_le hoN
        have hq : Streaming.stableDb rows P o =
            Except.ok ((rows.drop o).take P) := rfl
        have hlenraw : ((rows.drop o).take P).length =
            min P (rows.length - o) := by
          simp
        have hne : (rows.drop o).take P ≠ [] := by
          intro hcontra
          rw [hcontra] at hlenraw
          simp at hlenraw
          omega
        rw [drain_succ, Next_fetch_rows cols meta o st b j _ _ hneed hq hne]
        rcases hbys : ((rows.drop o).take P).map (buildRow cols meta) with
          _ | ⟨y, ys⟩
        · exact absurd (by simpa using hbys) hne
        · have hL : ys.length + 1 = min P (rows.length - o) := by
            have := congrArg List.length hbys
            simp at this
            omega
          have hlentake : ((rows.drop o).take P).length = ys.length + 1 := by
            omega
          rw [hlentake]
          have hrec := ih (o + (ys.length + 1)) true (y :: ys) 1
            (by omega) (by simp) (by intro hcontra; cases hcontra)
            (by simp; omega)
          simp only [List.head?_cons, hrec]
          refine Prod.ext ?_ (Prod.ext rfl ?_)
          · show y :: ((y :: ys).drop 1 ++
                (rows.drop (o + (ys.length + 1))).map (buildRow cols meta)) =
              b.drop j ++ (rows.drop o).map (buildRow cols meta)
            rw [hdropb, List.nil_append]
            simp only [List.drop_succ_cons, List.drop_zero]
            rw [show y :: (ys ++
                (rows.drop (o + (ys.length + 1))).map (buildRow cols meta)) =
                (y :: ys) ++
                  (rows.drop (o + (ys.length + 1))).map (buildRow cols meta)
              from rfl]
            conv_rhs => rw [← List.take_append_drop P (rows.drop o)]
            rw [List.map_append, hbys]
            congr 1
            have hdd : (rows.drop o).drop P = rows.drop (o + P) :=
              List.drop_drop P o rows
            rw [hdd]
            rcases le_or_lt P (rows.length - o) with hle | hlt
            · have hPL : ys.length + 1 = P := by omega
              rw [hPL]
            · have h1 : rows.length ≤ o + (ys.length + 1) := by omega
              have h2 : rows.length ≤ o + P := by omega
              rw [List.drop_eq_nil_of_le h1, List.drop_eq_nil_of_le h2]
          · show (some (ys.length + 1)).toList ++
                Streaming.traceOf P (rows.length - (o + (ys.length + 1))) =
              Streaming.traceOf P (rows.length - o)
            simp only [Option.toList_some, List.singleton_append]
            rw [traceOf_pos P (rows.length - o) hP (by omega)]
            congr 1
            rw [← hL]
            congr 1
            omega

/-- The fetch-size trace is a run of positive sizes closed by the final
empty fetch. -/
theorem traceOf_split (P : Nat) (hP : 0 < P) :
    ∀ m, ∃ l, Streaming.traceOf P m = l ++ [0] ∧ ∀ k ∈ l, 0 < k := by
  intro m
  induction m using Nat.strong_induction_on with
  | _ m ih =>
    by_cases hm : m = 0
    · subst hm
      exact ⟨[], by simp [traceOf_zero], by simp⟩
    · obtain ⟨l, hl, hpos⟩ := ih (m - min P m) (by omega)
      refine ⟨min P m :: l, ?_, ?_⟩
      · rw [traceOf_pos P m hP (by omega), hl]
        rfl
      · intro k hk
        rcases List.mem_cons.mp hk with rfl | hk'
        · omega
        · exact hpos k hk'

/-- The number of non-empty fetches needed to stream m rows with page
size P is the ceiling of m over P. -/
theorem traceOf_count (P : Nat) (hP : 0 < P) :
    ∀ m, ((Streaming.traceOf P m).filter (fun k => k != 0)).length =
      (m + P - 1) / P := by
  intro m
  induction m using Nat.strong_induction_on with
  | _ m ih =>
    by_cases hm : m = 0
    · subst hm
      rw [traceOf_zero, Nat.div_eq_of_lt (show 0 + P - 1 < P by omega)]
      simp
    · rw [traceOf_pos P m hP (by omega)]
      have hkpos : 0 < min P m := by omega
      rw [List.filter_cons, if_pos (by simp [bne_iff_ne]; omega)]
      simp only [List.length_cons]
      rw [ih (m - min P m) (by omega)]
      rcases le_or_lt m P with hle | hlt
      · have h1 : min P m = m := by omega
        rw [h1]
        have h2 : m - m = 0 := by omega
        rw [h2]
        have h3 : (0 + P - 1) / P = 0 := Nat.div_eq_of_lt (by omega)
        rw [h3]
        symm
        apply Nat.div_eq_of_lt_le (by omega) (by omega)
      · have h1 : min P m = P := by omega
        rw [h1]
        have h2 : m + P - 1 = ((m - P) + P - 1) + P := by omega
        rw [h2, Nat.add_div_right _ hP]


/-- C4: draining the iterator over a stable table of N rows with page
size P yields exactly N rows, issues exactly ceil(N over P) fetches that
return rows, leaves the offset at N with the iterator exhausted, and the
exhaustion is signalled by a final fetch returning zero rows, every
earlier fetch returning at least one. -/
theorem C4_iterator_pagination (rows : List (List GoValue))
    (table : TableMetadata) (P : Nat) (hP : 0 < P) :
    (Streaming.drain (Streaming.stableDb rows P) (rows.length + 1)
        (Streaming.NewRowIterator table)).1.length = rows.length ∧
    ((Streaming.drain (Streaming.stableDb rows P) (rows.length + 1)
        (Streaming.NewRowIterator table)).2.2.filter
          (fun k => k != 0)).length = (rows.length + P - 1) / P ∧
    (Streaming.drain (Streaming.stableDb rows P) (rows.length + 1)
        (Streaming.NewRowIterator table)).2.1.offset = rows.length ∧
    (Streaming.drain (Streaming.stableDb rows P) (rows.length + 1)
        (Streaming.NewRowIterator table)).2.1.done = true ∧
    (Streaming.drain (Streaming.stableDb rows P) (rows.length + 1)
        (Streaming.NewRowIterator table)).2.2.getLast? = some 0 ∧
    (Streaming.drain (Streaming.stableDb rows P) (rows.length + 1)
        (Streaming.NewRowIterator table)).2.2.dropLast.all
      (fun k => k != 0) = true := by
  have hd := drain_stable rows (table.Fields.map (fun f => f.FieldName))
    (table.Fields.map (fun f => (f.FieldName, f))) P hP (rows.length + 1)
    0 false [] 0 (by omega) (by simp) (fun _ => ⟨rfl, rfl⟩) (by simp)
  have hiter : Streaming.NewRowIterator table =
      (⟨table.Fields.map (fun f => f.FieldName),
        table.Fields.map (fun f => (f.FieldName, f)),
        0, false, [], 0, none, false⟩ : Streaming.RowIterator) := rfl
  rw [hiter, hd]
  obtain ⟨l, hl, hpos⟩ := traceOf_split P hP rows.length
  have htr : Streaming.traceOf P (rows.length - 0) = l ++ [0] := by
    simpa using hl
  refine ⟨by simp, ?_, rfl, rfl, ?_, ?_⟩
  · rw [show Streaming.traceOf P (rows.length - 0) =
      Streaming.traceOf P rows.length from by simp]
    exact traceOf_count P hP rows.length
  · rw [htr]
    exact List.getLast?_concat l
  · rw [htr, List.dropLast_concat]
    rw [List.all_eq_true]
    intro k hk
    simp only [bne_iff_ne, ne_eq, decide_eq_true_eq]
    have := hpos k hk
    omega

/-- C4 witness: five rows with page size 2 yield five rows, three
non-empty fetches of sizes 2, 2, 1, a final offset of 5, and exhaustion
after the one empty fetch. -/
theorem C4_iterator_pagination_witness :
    (Streaming.drain (Streaming.stableDb rows5 2) (rows5.length + 1)
        (Streaming.NewRowIterator idTable)).1.length = rows5.length ∧
    ((Streaming.drain (Streaming.stableDb rows5 2) (rows5.length + 1)
        (Streaming.NewRowIterator idTable)).2.2.filter
          (fun k => k != 0)).length = (rows5.length + 2 - 1) / 2 ∧
    (Streaming.drain (Streaming.stableDb rows5 2) (rows5.length + 1)
        (Streaming.NewRowIterator idTable)).2.1.offset = rows5.length ∧
    (Streaming.drain (Streaming.stableDb rows5 2) (rows5.length + 1)
        (Streaming.NewRowIterator idTable)).2.1.done = true ∧
    (Streaming.drain (Streaming.stableDb rows5 2) (rows5.length + 1)
        (Streaming.NewRowIterator idTable)).2.2.getLast? = some 0 ∧
    (Streaming.drain (Streaming.stableDb rows5 2) (rows5.length + 1)
        (Streaming.NewRowIterator idTable)).2.2.dropLast.all
      (fun k => k != 0) = true :=
  C4_iterator_pagination rows5 idTable 2 (by decide)

/-- Unfolding of association-list lookup over a cons cell. -/
theorem mapGet_cons {α : Type} (p : String × α) (ps : List (String × α))
    (k : String) :
    mapGet (p :: ps) k = if (p.1 == k) = true then some p.2 else mapGet ps k := by
  unfold mapGet
  by_cases hp : (p.1 == k) = true
  · simp [List.find?, hp]
  · simp [List.find?, hp]
  -- the find? on a cons reduces through its boolean guard

/-- A lookup hit names an entry of the list. -/
theorem mapGet_eq_some_mem {α : Type} (m : List (String × α)) (k : String)
    (a : α) (h : mapGet m k = some a) : ∃ p ∈ m, p.1 = k ∧ p.2 = a := by
  unfold mapGet at h
  cases hf : m.find? (fun p => p.1 == k) with
  | none => rw [hf] at h; simp at h
  | some p =>
    rw [hf] at h
    simp only [Option.map_some'] at h
    refine ⟨p, List.mem_of_find?_eq_some hf, ?_, by simpa using h⟩
    simpa using List.find?_some hf

/-- Overwriting an existing key leaves lookups of other keys unchanged. -/
theorem mapGet_map_update_ne {α : Type} (k k' : String) (v : α)
    (hne : k' ≠ k) :
    ∀ ps : List (String × α),
      mapGet (ps.map (fun q => if (q.1 == k) = true then (k, v) else q)) k' =
        mapGet ps k' := by
  intro ps
  induction ps with
  | nil => rfl
  | cons p ps ih =>
    simp only [List.map_cons]
    by_cases hp : (p.1 == k) = true
    · rw [if_pos hp, mapGet_cons, mapGet_cons]
      have hpk : p.1 = k := by simpa using hp
      have h1 : ¬(((k, v).1 == k') = true) := by
        simp only [beq_iff_eq]
        exact fun h => hne h.symm
      have h2 : ¬((p.1 == k') = true) := by
        rw [hpk]
        simp only [beq_iff_eq]
        exact fun h => hne h.symm
      rw [if_neg h1, if_neg h2]
      exact ih
    · rw [if_neg hp, mapGet_cons, mapGet_cons]
      by_cases hp' : (p.1 == k') = true
      · rw [if_pos hp', if_pos hp']
      · rw [if_neg hp', if_neg hp']
        exact ih
/-- Appending a fresh binding leaves lookups of other keys unchanged. -/
theorem mapGet_append_single_ne {α : Type} (k k' : String) (v : α)
    (hne : k' ≠ k) :
    ∀ ps : List (String × α), mapGet (ps ++ [(k, v)]) k' = mapGet ps k' := by
  intro ps
  induction ps with
  | nil =>
    simp only [List.nil_append, mapGet_cons]
    rw [if_neg (by simp only [beq_iff_eq]; exact fun h => hne h.symm)]
  | cons p ps ih =>
    simp only [List.cons_append, mapGet_cons]
    by_cases hp' : (p.1 == k') = true
    · rw [if_pos hp', if_pos hp']
    · rw [if_neg hp', if_neg hp']
      exact ih

/-- Overwriting an existing key makes its lookup return the new value. -/
theorem mapGet_map_update_self {α : Type} (k : String) (v : α) :
    ∀ ps : List (String × α), ps.any (fun q => q.1 == k) = true →
      mapGet (ps.map (fun q => if (q.1 == k) = true then (k, v) else q)) k =
        some v := by
  intro ps
  induction ps with
  | nil => simp
  | cons p ps ih =>
    intro hany
    simp only [List.map_cons]
    by_cases hp : (p.1 == k) = true
    · rw [if_pos hp, mapGet_cons, if_pos (by simp)]
    · rw [if_neg hp, mapGet_cons, if_neg hp]
      apply ih
      simp only [List.any_cons, hp] at hany
      simpa using hany

/-- Appending a fresh binding makes its lookup return the new value. -/
theorem mapGet_append_single_self {α : Type} (k : String) (v : α) :
    ∀ ps : List (String × α), ps.any (fun q => q.1 == k) = false →
      mapGet (ps ++ [(k, v)]) k = some v := by
  intro ps
  induction ps with
  | nil =>
    intro _
    simp only [List.nil_append, mapGet_cons]
    rw [if_pos (by simp)]
  | cons p ps ih =>
    intro hany
    simp only [List.any_cons] at hany
    have hp : ¬((p.1 == k) = true) := by
      intro hx
      rw [hx] at hany
      simp at hany
    simp only [List.cons_append, mapGet_cons]
    rw [if_neg hp]
    apply ih
    rcases Bool.or_eq_false_iff.mp hany with ⟨_, h2⟩
    exact h2

/-- Go map assignment: the assigned key now maps to the assigned value. -/
theorem mapGet_mapSet_self {α : Type} (m : List (String × α)) (k : String)
    (v : α) : mapGet (mapSet m k v) k = some v := by
  unfold mapSet
  by_cases hany : m.any (fun p => p.1 == k) = true
  · rw [if_pos hany]
    exact mapGet_map_update_self k v m hany
  · rw [if_neg hany]
    exact mapGet_append_single_self k v m
      (by rw [← Bool.not_eq_true]; exact hany)

/-- Go map assignment: other keys are unaffected. -/
theorem mapGet_mapSet_ne {α : Type} (m : List (String × α)) (k k' : String)
    (v : α) (hne : k' ≠ k) : mapGet (mapSet m k v) k' = mapGet m k' := by
  unfold mapSet
  by_cases hany : m.any (fun p => p.1 == k) = true
  · rw [if_pos hany]
    exact mapGet_map_update_ne k k' v hne m
  · rw [if_neg hany]
    exact mapGet_append_single_ne k k' v hne m

/-- Membership in an updated map: the new binding or an untouched old one. -/
theorem mem_mapSet {α : Type} (m : List (String × α)) (k : String) (v : α)
    (p : String × α) (hp : p ∈ mapSet m k v) :
    p = (k, v) ∨ (p ∈ m ∧ ¬((p.1 == k) = true)) := by
  unfold mapSet at hp
  by_cases hany : m.any (fun q => q.1 == k) = true
  · rw [if_pos hany] at hp
    obtain ⟨q, hq, hqe⟩ := List.mem_map.mp hp
    by_cases hqk : (q.1 == k) = true
    · left
      rw [← hqe, if_pos hqk]
    · right
      rw [← hqe, if_neg hqk]
      exact ⟨hq, hqk⟩
  · rw [if_neg hany] at hp
    rcases List.mem_append.mp hp with h1 | h2
    · right
      refine ⟨h1, fun hx => ?_⟩
      exact hany (List.any_eq_true.mpr ⟨p, h1, hx⟩)
    · left
      simpa using h2

/-- One streamed row appends exactly one entry to every declared field's
column: arrays at n grow to n + 1, keys stay within the declared names,
and no column disappears. -/
theorem rowStep_inv (row : TableRow) (n : Nat) (allNames : List String) :
    ∀ (fs : List FieldMetadata) (m : List (String × List NpEntry)),
      (fs.map (fun f => f.FieldName)).Nodup →
      (∀ f ∈ fs, allNames.contains f.FieldName = true) →
      (∀ f ∈ fs, (mapGet m f.FieldName).isSome = true) →
      (∀ p ∈ m, allNames.contains p.1 = true) →
      (∀ p ∈ m, p.2.length =
        if (fs.map (fun f => f.FieldName)).contains p.1 = true then n
        else n + 1) →
      (∀ p ∈ Streaming.rowStep fs m row, p.2.length = n + 1) ∧
      (∀ p ∈ Streaming.rowStep fs m row, allNames.contains p.1 = true) ∧
      (∀ k, (mapGet m k).isSome = true →
        (mapGet (Streaming.rowStep fs m row) k).isSome = true) := by
  intro fs
  induction fs with
  | nil =>
    intro m hnd hall hex hkeys hlen
    refine ⟨?_, hkeys, fun k hk => hk⟩
    intro p hp
    have := hlen p hp
    simpa using this
  | cons f fs ih =>
    intro m hnd hall hex hkeys hlen
    have hexf : (mapGet m f.FieldName).isSome = true := hex f (by simp)
    obtain ⟨a, ha⟩ := Option.isSome_iff_exists.mp hexf
    obtain ⟨p0, hp0, hp0k, hp0v⟩ := mapGet_eq_some_mem m f.FieldName a ha
    have halen : a.length = n := by
      have hl := hlen p0 hp0
      rw [hp0k] at hl
      rw [if_pos (by simp)] at hl
      rw [← hp0v]
      exact hl
    have hstep : Streaming.rowStep (f :: fs) m row =
        Streaming.rowStep fs
          (mapSet m f.FieldName
            ((mapGet m f.FieldName).getD [] ++
              [Streaming.normValue f.DataType (rowGet row f.FieldName)])) row := by
      simp [Streaming.rowStep]
    rw [hstep]
    rw [List.map_cons] at hnd
    have hndtail := (List.nodup_cons.mp hnd).2
    have hhead : f.FieldName ∉ fs.map (fun g => g.FieldName) :=
      (List.nodup_cons.mp hnd).1
    have hex' : ∀ g ∈ fs,
        (mapGet (mapSet m f.FieldName
          ((mapGet m f.FieldName).getD [] ++
            [Streaming.normValue f.DataType (rowGet row f.FieldName)]))
          g.FieldName).isSome = true := by
      intro g hg
      by_cases hgf : g.FieldName = f.FieldName
      · rw [hgf, mapGet_mapSet_self]
        rfl
      · rw [mapGet_mapSet_ne _ _ _ _ hgf]
        exact hex g (by simp [hg])
    have hkeys' : ∀ p ∈ mapSet m f.FieldName
        ((mapGet m f.FieldName).getD [] ++
          [Streaming.normValue f.DataType (rowGet row f.FieldName)]),
        allNames.contains p.1 = true := by
      intro p hp
      rcases mem_mapSet m _ _ p hp with rfl | ⟨hpm, _⟩
      · exact hall f (by simp)
      · exact hkeys p hpm
    have hlen' : ∀ p ∈ mapSet m f.FieldName
        ((mapGet m f.FieldName).getD [] ++
          [Streaming.normValue f.DataType (rowGet row f.FieldName)]),
        p.2.length =
          if (fs.map (fun g => g.FieldName)).contains p.1 = true then n
          else n + 1 := by
      intro p hp
      rcases mem_mapSet m _ _ p hp with rfl | ⟨hpm, hpk⟩
      · rw [if_neg (by simpa using hhead)]
        rw [ha]
        simp [halen]
      · have hne : ¬(p.1 = f.FieldName) := by
          intro hx
          exact hpk (by simp [hx])
        have hl := hlen p hpm
        rw [show ((f :: fs).map (fun g => g.FieldName)).contains p.1 =
            (fs.map (fun g => g.FieldName)).contains p.1 from by
          simp only [List.map_cons, List.contains_cons]
          simp [hne]] at hl
        exact hl
    obtain ⟨ih1, ih2, ih3⟩ := ih _ hndtail (fun g hg => hall g (by simp [hg]))
      hex' hkeys' hlen'
    refine ⟨ih1, ih2, fun k hk => ih3 k ?_⟩
    by_cases hkf : k = f.FieldName
    · rw [hkf, mapGet_mapSet_self]
      rfl
    · rw [mapGet_mapSet_ne _ _ _ _ hkf]
      exact hk

/-- The column initialization creates one empty column per declared field
and nothing else. -/
theorem initColumns_inv (allNames : List String) :
    ∀ (fs : List FieldMetadata) (m : List (String × List NpEntry)),
      (∀ f ∈ fs, allNames.contains f.FieldName = true) →
      (∀ p ∈ m, p.2 = [] ∧ allNames.contains p.1 = true) →
      (∀ f ∈ fs,
        (mapGet (fs.foldl (fun m col => mapSet m col.FieldName []) m)
          f.FieldName).isSome = true) ∧
      (∀ k, (mapGet m k).isSome = true →
        (mapGet (fs.foldl (fun m col => mapSet m col.FieldName []) m)
          k).isSome = true) ∧
      (∀ p ∈ fs.foldl (fun m col => mapSet m col.FieldName []) m,
        p.2 = [] ∧ allNames.contains p.1 = true) := by
  intro fs
  induction fs with
  | nil =>
    intro m _ hm
    exact ⟨fun f hf => absurd hf (List.not_mem_nil f), fun k hk => hk, hm⟩
  | cons f fs ih =>
    intro m hall hm
    simp only [List.foldl_cons]
    have hm' : ∀ p ∈ mapSet m f.FieldName [],
        p.2 = [] ∧ allNames.contains p.1 = true := by
      intro p hp
      rcases mem_mapSet m _ _ p hp with rfl | ⟨hpm, _⟩
      · exact ⟨rfl, hall f (by simp)⟩
      · exact hm p hpm
    obtain ⟨ih1, ih2, ih3⟩ := ih (mapSet m f.FieldName [])
      (fun g hg => hall g (by simp [hg])) hm'
    refine ⟨?_, ?_, ih3⟩
    · intro g hg
      rcases List.mem_cons.mp hg with rfl | hg'
      · apply ih2
        rw [mapGet_mapSet_self]
        rfl
      · exact ih1 g hg'
    · intro k hk
      apply ih2
      by_cases hkf : k = f.FieldName
      · rw [hkf, mapGet_mapSet_self]
        rfl
      · rw [mapGet_mapSet_ne _ _ _ _ hkf]
        exact hk

/-- Streaming any number of rows from uniformly sized columns grows every
column by exactly the number of rows. -/
theorem foldl_rowStep_inv (fields : List FieldMetadata)
    (hnd : (fields.map (fun f => f.FieldName)).Nodup) :
    ∀ (rows : List TableRow) (m : List (String × List NpEntry)) (n : Nat),
      (∀ f ∈ fields, (mapGet m f.FieldName).isSome = true) →
      (∀ p ∈ m, (fields.map (fun f => f.FieldName)).contains p.1 = true) →
      (∀ p ∈ m, p.2.length = n) →
      (∀ f ∈ fields,
        (mapGet (rows.foldl (Streaming.rowStep fields) m)
          f.FieldName).isSome = true) ∧
      (∀ p ∈ rows.foldl (Streaming.rowStep fields) m,
        p.2.length = n + rows.length) := by
  intro rows
  induction rows with
  | nil =>
    intro m n hex hkeys hlen
    simp only [List.foldl_nil, List.length_nil]
    exact ⟨hex, fun p hp => by rw [hlen p hp]; omega⟩
  | cons r rs ih =>
    intro m n hex hkeys hlen
    simp only [List.foldl_cons]
    obtain ⟨h1, h2, h3⟩ := rowStep_inv r n (fields.map (fun f => f.FieldName))
      fields m hnd
      (fun f hf => by simpa using List.mem_map_of_mem (fun g => g.FieldName) hf)
      hex hkeys
      (fun p hp => by rw [if_pos (hkeys p hp)]; exact hlen p hp)
    obtain ⟨g1, g2⟩ := ih (Streaming.rowStep fields m r) (n + 1)
      (fun f hf => h3 f.FieldName (hex f hf)) h2 h1
    refine ⟨g1, fun p hp => ?_⟩
    rw [g2 p hp]
    simp only [List.length_cons]
    omega

/-- C5: after transposing any row stream of a table whose field names are
unique, every declared field owns exactly one output column whose length
equals the number of rows consumed, including length zero for an empty
table (a null field value contributes a sentinel entry, never an omission,
since each row grows each column by exactly one entry). -/
theorem C5_transposition_lengths (fields : List FieldMetadata)
    (rows : List TableRow)
    (hnd : (fields.map (fun f => f.FieldName)).Nodup) :
    ∀ f ∈ fields,
      (mapGet (Streaming.transposeRows fields rows) f.FieldName).isSome = true ∧
      ((mapGet (Streaming.transposeRows fields rows)
          f.FieldName).getD []).length = rows.length := by
  obtain ⟨i1, i2, i3⟩ := initColumns_inv (fields.map (fun f => f.FieldName))
    fields []
    (fun f hf => by simpa using List.mem_map_of_mem (fun g => g.FieldName) hf)
    (fun p hp => absurd hp (List.not_mem_nil p))
  obtain ⟨g1, g2⟩ := foldl_rowStep_inv fields hnd rows
    (Streaming.initColumns fields) 0
    (fun f hf => i1 f hf)
    (fun p hp => (i3 p hp).2)
    (fun p hp => by rw [(i3 p hp).1]; rfl)
  intro f hf
  have hsome : (mapGet (Streaming.transposeRows fields rows)
      f.FieldName).isSome = true := g1 f hf
  refine ⟨hsome, ?_⟩
  obtain ⟨arr, harr⟩ := Option.isSome_iff_exists.mp hsome
  rw [harr]
  obtain ⟨p0, hp0, hp0k, hp0v⟩ := mapGet_eq_some_mem _ _ _ harr
  have := g2 p0 hp0
  rw [hp0v] at this
  simpa using this

/-- C5 witness: the one-column table streamed two rows, one of them null,
and its id column exists with exactly two entries. -/
theorem C5_transposition_lengths_witness :
    (mapGet (Streaming.transposeRows idTable.Fields c5Rows)
      (plainField ("id") DataTypeInt).FieldName).isSome = true ∧
    ((mapGet (Streaming.transposeRows idTable.Fields c5Rows)
        (plainField ("id") DataTypeInt).FieldName).getD []).length =
      c5Rows.length :=
  C5_transposition_lengths idTable.Fields c5Rows (by decide)
    (plainField ("id") DataTypeInt) (by decide)
